import Mathlib

/-!
Verification of a minimal multi-list to-do web application backed by two
document collections: a flat collection of items (the virtual list for the
current date) and a collection of named lists, each embedding copies of items.

The embedding models the database state as two Lean lists and each route
handler as a pure function from state and request data to a response and a
new state. Mongoose operations are translated as follows: find maps to
List.find?, findOneAndUpdate with upsert maps to find-or-append,
findByIdAndUpdate and the positional array update map to updating the first
element matching the identifier, findByIdAndDelete maps to removing the
first matching element, and a pull from an embedded array maps to filtering
out every matching element. Object identifiers are modelled as strings; a
handler that creates a document receives its fresh identifiers as explicit
arguments.
-/

namespace Todo

/-- An item document of the flat items collection, or an embedded copy inside
a list document: an identifier and a free-text name. -/
structure Item where
  id : String
  name : String
deriving Repr, DecidableEq

/-- A list document: a name acting as lookup key and an ordered array of
embedded item copies. -/
structure ListDoc where
  name : String
  items : List Item
deriving Repr, DecidableEq

/-- The persisted database state: the flat items collection and the lists
collection. -/
structure DB where
  items : List Item
  lists : List ListDoc
deriving Repr, DecidableEq

/-- The empty database. -/
def dbEmpty : DB := ⟨[], []⟩

/-- The observable outcome of handling a request: a rendered view, a
redirect, or a client error with status code and message. -/
inductive Response where
  | render (title : String) (items : List Item)
  | redirect (path : String)
  | clientError (code : Nat) (msg : String)
deriving Repr, DecidableEq

/-- Lowercase every character of a string, as the lodash toLower step of
capitalize does. -/
def lowerStr (s : String) : String := ⟨s.data.map Char.toLower⟩

/-- Uppercase the first character of a string and leave the rest unchanged,
as lodash upperFirst does. -/
def upperFirst (s : String) : String :=
  match s.data with
  | [] => s
  | c :: cs => ⟨c.toUpper :: cs⟩

/-- The lodash capitalize function used by the custom-list GET handler:
lowercase the whole string, then uppercase the first character. -/
def capitalize (s : String) : String := upperFirst (lowerStr s)

/-- Modelled from the spec words "normalize the name (capitalize first
letter)": uppercase only the first character, leaving the remaining
characters untouched. Stated separately so it can be compared with the
capitalize function the code actually applies. -/
def specCapitalizeFirstLetter (s : String) : String := upperFirst s

/-- The names of the three fixed placeholder items created by the seeder. -/
def defaultItemNames : List String :=
  ["Welcome to your todolist!", "Hit the + to add a new item",
   "<-- Hit this to delete an item"]

/-- The three placeholder item documents the seeder constructs, with the
given fresh identifiers. -/
def mkDefaultItems (i1 i2 i3 : String) : List Item :=
  [⟨i1, "Welcome to your todolist!"⟩, ⟨i2, "Hit the + to add a new item"⟩,
   ⟨i3, "<-- Hit this to delete an item"⟩]

/-- The createDefaultItems seeder: build the three placeholder items, insert
them only when the flat items collection is empty, and return them in every
case. -/
def createDefaultItems (db : DB) (i1 i2 i3 : String) : List Item × DB :=
  let defaultItems := mkDefaultItems i1 i2 i3
  if db.items.length = 0 then
    (defaultItems, { db with items := db.items ++ defaultItems })
  else
    (defaultItems, db)

/-- The GET home handler: fetch the flat items; when none are found run the
seeder and redirect to the home path, otherwise render the list view titled
with the current date string. -/
def getHome (db : DB) (today i1 i2 i3 : String) : Response × DB :=
  if db.items.length = 0 then
    (Response.redirect "/", (createDefaultItems db i1 i2 i3).2)
  else
    (Response.render today db.items, db)

/-- Look up the first list document with the given name, as a findOne on the
lists collection does. -/
def findList (ls : List ListDoc) (n : String) : Option ListDoc :=
  ls.find? (fun l => l.name == n)

/-- The GET custom-list handler: capitalize the path segment, run the seeder,
then perform the findOneAndUpdate upsert keyed by the capitalized name: when
a list with that name exists return it unchanged, otherwise insert a new
list holding the seeded items; render the resulting document. -/
def getCustomList (db : DB) (param i1 i2 i3 : String) : Response × DB :=
  let name := capitalize param
  let seeded := createDefaultItems db i1 i2 i3
  let db1 := seeded.2
  match findList db1.lists name with
  | some l => (Response.render l.name l.items, db1)
  | none =>
      (Response.render name seeded.1,
       { db1 with lists := db1.lists ++ [⟨name, seeded.1⟩] })

/-- Strip leading and trailing whitespace characters, as the JavaScript trim
method called by the add handler validation does. -/
def trimStr (s : String) : String :=
  ⟨((s.data.dropWhile Char.isWhitespace).reverse.dropWhile Char.isWhitespace).reverse⟩

/-- Truthiness-and-blankness test of the add handler on a form field: the
field is rejected when missing, when the empty string, or when it trims to
the empty string. -/
def isBlankField : Option String → Bool
  | none => true
  | some s => s == "" || trimStr s == ""

/-- Truthiness test of the edit handler on a form field: the field is
rejected only when missing or the empty string. -/
def isFalsyField : Option String → Bool
  | none => true
  | some s => s == ""

/-- Update the first element satisfying the predicate, leaving every other
element unchanged. -/
def updateFirst {α : Type} (p : α → Bool) (f : α → α) : List α → List α
  | [] => []
  | x :: xs => if p x then f x :: xs else x :: updateFirst p f xs

/-- Remove the first element satisfying the predicate, leaving every other
element unchanged. -/
def removeFirst {α : Type} (p : α → Bool) : List α → List α
  | [] => []
  | x :: xs => if p x then xs else x :: removeFirst p xs

/-- The POST add handler: validate both fields as non-blank strings, then
either save the new item into the flat collection when the target name
equals the current date string, or look the list up by the exact submitted
name, failing with a client error when absent and appending the item to its
embedded array when present. -/
def postAdd (db : DB) (today freshId : String) (newItem listField : Option String) :
    Response × DB :=
  if isBlankField newItem then
    (Response.clientError 400 "Item name must be a non-empty string", db)
  else if isBlankField listField then
    (Response.clientError 400 "List name must be a non-empty string", db)
  else
    let itemName := newItem.getD ""
    let listName := listField.getD ""
    let item : Item := ⟨freshId, itemName⟩
    if listName == today then
      (Response.redirect "/", { db with items := db.items ++ [item] })
    else
      match findList db.lists listName with
      | none => (Response.clientError 400 "List not found!", db)
      | some _ =>
          let lists2 := updateFirst (fun l => l.name == listName)
            (fun l => { l with items := l.items ++ [item] }) db.lists
          (Response.redirect ("/" ++ listName), { db with lists := lists2 })

/-- The POST edit handler: require a non-missing identifier and title, then
either rename the first flat item matching the identifier when the list
field equals the current date string, or apply the positional update to the
first list matching both the submitted name and the identifier; redirect in
both branches regardless of whether anything matched. -/
def postEdit (db : DB) (today : String) (updatedItemId updatedItemTitle : Option String)
    (listName : String) : Response × DB :=
  if isFalsyField updatedItemId || isFalsyField updatedItemTitle then
    (Response.clientError 400 "Missing updated item ID or title", db)
  else
    let idv := updatedItemId.getD ""
    let title := updatedItemTitle.getD ""
    if listName == today then
      let items2 := updateFirst (fun it => it.id == idv)
        (fun it => { it with name := title }) db.items
      (Response.redirect "/", { db with items := items2 })
    else
      let lists2 := updateFirst
        (fun l => l.name == listName && l.items.any (fun it => it.id == idv))
        (fun l =>
          let litems := updateFirst (fun it => it.id == idv)
            (fun it => { it with name := title }) l.items
          { l with items := litems })
        db.lists
      (Response.redirect ("/" ++ listName), { db with lists := lists2 })

/-- The POST delete handler: when the list field equals the current date
string remove the flat item with the submitted identifier, otherwise pull
every embedded item with that identifier from the first list matching the
submitted name; redirect in both branches with no validation at all. -/
def postDelete (db : DB) (today listName checkbox : String) : Response × DB :=
  if listName == today then
    let items2 := removeFirst (fun it => it.id == checkbox) db.items
    (Response.redirect "/", { db with items := items2 })
  else
    let lists2 := updateFirst (fun l => l.name == listName)
      (fun l => { l with items := l.items.filter (fun it => !(it.id == checkbox)) })
      db.lists
    (Response.redirect ("/" ++ listName), { db with lists := lists2 })

/-- One request to the application, carrying the request data together with
the date string current at handling time and the fresh identifiers the
handler may consume. -/
inductive Request where
  | home (today i1 i2 i3 : String)
  | customList (param i1 i2 i3 : String)
  | add (today freshId : String) (newItem listField : Option String)
  | edit (today : String) (updatedItemId updatedItemTitle : Option String)
      (listName : String)
  | del (today listName checkbox : String)
deriving Repr, DecidableEq

/-- The state transition a single request performs on the database. -/
def step (db : DB) : Request → DB
  | .home today i1 i2 i3 => (getHome db today i1 i2 i3).2
  | .customList p i1 i2 i3 => (getCustomList db p i1 i2 i3).2
  | .add t f n l => (postAdd db t f n l).2
  | .edit t i ti l => (postEdit db t i ti l).2
  | .del t l c => (postDelete db t l c).2

/-- Run a sequence of requests from the empty database. -/
def execAll (reqs : List Request) : DB := reqs.foldl step dbEmpty

/-- A database state reachable by some well-ordered sequence of requests
from the empty database. -/
def Reachable (db : DB) : Prop := ∃ reqs : List Request, execAll reqs = db

/-! ### Helper lemmas on characters and the capitalize function -/

theorem char_toNat_ofNat (n : Nat) (h : n.isValidChar) : (Char.ofNat n).toNat = n := by
  simp [Char.ofNat, h, Char.ofNatAux, Char.toNat]
  rfl

theorem char_eq_of_toNat_eq {a b : Char} (h : a.toNat = b.toNat) : a = b := by
  rw [← Char.ofNat_toNat a, h, Char.ofNat_toNat]

theorem toNat_toLower (c : Char) :
    c.toLower.toNat = if c.toNat ≥ 65 ∧ c.toNat ≤ 90 then c.toNat + 32 else c.toNat := by
  by_cases h : c.toNat ≥ 65 ∧ c.toNat ≤ 90
  · simp only [Char.toLower, if_pos h]
    exact char_toNat_ofNat _ (Or.inl (by omega))
  · simp only [Char.toLower, if_neg h]

theorem toNat_toUpper (c : Char) :
    c.toUpper.toNat = if c.toNat ≥ 97 ∧ c.toNat ≤ 122 then c.toNat - 32 else c.toNat := by
  by_cases h : c.toNat ≥ 97 ∧ c.toNat ≤ 122
  · simp only [Char.toUpper, if_pos h]
    exact char_toNat_ofNat _ (Or.inl (by omega))
  · simp only [Char.toUpper, if_neg h]

theorem toLower_toLower (c : Char) : c.toLower.toLower = c.toLower := by
  apply char_eq_of_toNat_eq
  simp only [toNat_toLower]
  split_ifs <;> omega

theorem toLower_toUpper_toLower (c : Char) : c.toLower.toUpper.toLower = c.toLower := by
  apply char_eq_of_toNat_eq
  simp only [toNat_toLower, toNat_toUpper]
  split_ifs <;> omega

theorem capitalize_idem (s : String) : capitalize (capitalize s) = capitalize s := by
  obtain ⟨data⟩ := s
  cases data with
  | nil => rfl
  | cons c cs =>
      have hcomp : Char.toLower ∘ Char.toLower = Char.toLower := funext toLower_toLower
      simp [capitalize, lowerStr, upperFirst, toLower_toUpper_toLower,
        List.map_map, hcomp]

/-! ### Helper lemmas on updateFirst and removeFirst -/

theorem updateFirst_eq_self {α : Type} (p : α → Bool) (f : α → α) (l : List α)
    (h : ∀ x ∈ l, p x = false) : updateFirst p f l = l := by
  induction l with
  | nil => rfl
  | cons x xs ih =>
      have hx : p x = false := h x (List.mem_cons_self x xs)
      simp only [updateFirst, hx, Bool.false_eq_true, if_false]
      rw [ih (fun y hy => h y (List.mem_cons_of_mem x hy))]

theorem updateFirst_append_cons {α : Type} (p : α → Bool) (f : α → α)
    (pre : List α) (x : α) (post : List α)
    (hpre : ∀ y ∈ pre, p y = false) (hx : p x = true) :
    updateFirst p f (pre ++ x :: post) = pre ++ f x :: post := by
  induction pre with
  | nil => simp [updateFirst, hx]
  | cons y ys ih =>
      have hy : p y = false := hpre y (List.mem_cons_self y ys)
      simp only [List.cons_append, updateFirst, hy, Bool.false_eq_true, if_false,
        List.append_eq]
      rw [ih (fun z hz => hpre z (List.mem_cons_of_mem y hz))]

theorem updateFirst_map {α β : Type} (p : α → Bool) (f : α → α) (g : α → β)
    (hg : ∀ x, g (f x) = g x) (l : List α) :
    (updateFirst p f l).map g = l.map g := by
  induction l with
  | nil => rfl
  | cons x xs ih =>
      by_cases h : p x = true
      · simp [updateFirst, h, hg]
      · simp [updateFirst, h, ih]

theorem removeFirst_eq_self {α : Type} (p : α → Bool) (l : List α)
    (h : ∀ x ∈ l, p x = false) : removeFirst p l = l := by
  induction l with
  | nil => rfl
  | cons x xs ih =>
      have hx : p x = false := h x (List.mem_cons_self x xs)
      simp only [removeFirst, hx, Bool.false_eq_true, if_false]
      rw [ih (fun y hy => h y (List.mem_cons_of_mem x hy))]

theorem removeFirst_append_cons {α : Type} (p : α → Bool)
    (pre : List α) (x : α) (post : List α)
    (hpre : ∀ y ∈ pre, p y = false) (hx : p x = true) :
    removeFirst p (pre ++ x :: post) = pre ++ post := by
  induction pre with
  | nil => simp [removeFirst, hx]
  | cons y ys ih =>
      have hy : p y = false := hpre y (List.mem_cons_self y ys)
      simp only [List.cons_append, removeFirst, hy, Bool.false_eq_true, if_false,
        List.append_eq]
      rw [ih (fun z hz => hpre z (List.mem_cons_of_mem y hz))]

/-! ### Helper lemmas on the seeder and the custom-list handler -/

theorem createDefaultItems_fst (db : DB) (i1 i2 i3 : String) :
    (createDefaultItems db i1 i2 i3).1 = mkDefaultItems i1 i2 i3 := by
  simp only [createDefaultItems]
  split <;> rfl

theorem createDefaultItems_lists (db : DB) (i1 i2 i3 : String) :
    (createDefaultItems db i1 i2 i3).2.lists = db.lists := by
  simp only [createDefaultItems]
  split <;> rfl

theorem findList_append (l1 l2 : List ListDoc) (n : String) :
    findList (l1 ++ l2) n = (findList l1 n).or (findList l2 n) := by
  simp [findList]

theorem findList_singleton_self (n : String) (its : List Item) :
    findList [⟨n, its⟩] n = some ⟨n, its⟩ := by
  simp [findList]

theorem getCustomList_found (db : DB) (p i1 i2 i3 : String) (l : ListDoc)
    (hl : findList db.lists (capitalize p) = some l) :
    getCustomList db p i1 i2 i3
      = (Response.render l.name l.items, (createDefaultItems db i1 i2 i3).2) := by
  simp only [getCustomList, createDefaultItems_lists, hl]

theorem getCustomList_absent (db : DB) (p i1 i2 i3 : String)
    (hl : findList db.lists (capitalize p) = none) :
    getCustomList db p i1 i2 i3
      = (Response.render (capitalize p) (mkDefaultItems i1 i2 i3),
         { items := (createDefaultItems db i1 i2 i3).2.items,
           lists := db.lists ++ [⟨capitalize p, mkDefaultItems i1 i2 i3⟩] }) := by
  simp only [getCustomList, createDefaultItems_lists, createDefaultItems_fst, hl]

/-! ### Claims -/

/-- C1, counterexample to the claim as stated: the handler normalizes with
lodash capitalize, which also lowercases every later character, not with a
function that only capitalizes the first letter. On the path segment "fOO"
the code stores and renders a list named "Foo", while capitalizing only the
first letter of "fOO" yields "FOO". -/
theorem customList_capitalize_counterexample :
    (getCustomList dbEmpty "fOO" "a" "b" "c").2.lists.map ListDoc.name = ["Foo"] ∧
    specCapitalizeFirstLetter "fOO" = "FOO" ∧ ("Foo" : String) ≠ "FOO" := by
  refine ⟨by decide, by decide, by decide⟩

/-- C1 (amended): for every GET request on a custom path segment, the handler
normalizes the segment with lodash capitalize (first letter uppercased, the
rest lowercased), obtains the seed items from the seeder, and performs a
find-or-create on the lists collection keyed by the normalized name: when a
list with that name exists it is returned and rendered and the lists
collection is unchanged, otherwise a new list holding the three placeholder
seed items is inserted and rendered. Two path segments with the same
normalization, such as "foo" and "Foo", resolve to the same list document:
the second visit inserts nothing. -/
theorem customList_find_or_create (db : DB) (p q i1 i2 i3 j1 j2 j3 : String) :
    (∀ l, findList db.lists (capitalize p) = some l →
        (getCustomList db p i1 i2 i3).1 = Response.render l.name l.items ∧
        (getCustomList db p i1 i2 i3).2.lists = db.lists) ∧
    (findList db.lists (capitalize p) = none →
        (getCustomList db p i1 i2 i3).2.lists
          = db.lists ++ [⟨capitalize p, mkDefaultItems i1 i2 i3⟩] ∧
        (getCustomList db p i1 i2 i3).1
          = Response.render (capitalize p) (mkDefaultItems i1 i2 i3)) ∧
    (capitalize q = capitalize p →
        (getCustomList (getCustomList db p i1 i2 i3).2 q j1 j2 j3).2.lists
          = (getCustomList db p i1 i2 i3).2.lists) ∧
    capitalize "foo" = capitalize "Foo" := by
  refine ⟨?_, ?_, ?_, by decide⟩
  · intro l hl
    rw [getCustomList_found db p i1 i2 i3 l hl]
    exact ⟨rfl, createDefaultItems_lists db i1 i2 i3⟩
  · intro hl
    rw [getCustomList_absent db p i1 i2 i3 hl]
    exact ⟨rfl, rfl⟩
  · intro hq
    rcases h : findList db.lists (capitalize p) with _ | l
    · rw [getCustomList_absent db p i1 i2 i3 h]
      have hfind : findList (db.lists ++ [⟨capitalize p, mkDefaultItems i1 i2 i3⟩])
          (capitalize q) = some ⟨capitalize p, mkDefaultItems i1 i2 i3⟩ := by
        rw [hq, findList_append, h, findList_singleton_self]
        rfl
      rw [getCustomList_found _ q j1 j2 j3 _ hfind, createDefaultItems_lists]
    · rw [getCustomList_found db p i1 i2 i3 l h]
      have hfind : findList (createDefaultItems db i1 i2 i3).2.lists (capitalize q)
          = some l := by rw [createDefaultItems_lists, hq, h]
      rw [getCustomList_found _ q j1 j2 j3 _ hfind, createDefaultItems_lists]

/-- C1 witness: on the empty database, visiting the path segment "foo"
creates the list named "Foo" seeded with the three placeholder items and
renders it. -/
theorem customList_find_or_create_witness :
    (getCustomList dbEmpty "foo" "a" "b" "c").2.lists
      = dbEmpty.lists ++ [⟨capitalize "foo", mkDefaultItems "a" "b" "c"⟩] ∧
    (getCustomList dbEmpty "foo" "a" "b" "c").1
      = Response.render (capitalize "foo") (mkDefaultItems "a" "b" "c") :=
  (customList_find_or_create dbEmpty "foo" "x" "a" "b" "c" "d" "e" "f").2.1
    (by decide)

/-- C2: the seeder always returns the three fixed placeholder items, whose
names are the canonical three; it inserts exactly those three items when the
flat items collection is empty and performs no write when it is non-empty;
it never touches the lists collection; and running it twice in a row is the
same as running it once, so a second invocation inserts nothing further. -/
theorem createDefaultItems_spec (db : DB) (i1 i2 i3 j1 j2 j3 : String) :
    ((createDefaultItems db i1 i2 i3).1 = mkDefaultItems i1 i2 i3) ∧
    ((createDefaultItems db i1 i2 i3).1.map Item.name = defaultItemNames) ∧
    (db.items = [] →
        (createDefaultItems db i1 i2 i3).2.items = mkDefaultItems i1 i2 i3) ∧
    (db.items ≠ [] → (createDefaultItems db i1 i2 i3).2 = db) ∧
    ((createDefaultItems db i1 i2 i3).2.lists = db.lists) ∧
    ((createDefaultItems (createDefaultItems db i1 i2 i3).2 j1 j2 j3).2
      = (createDefaultItems db i1 i2 i3).2) := by
  by_cases h : db.items = []
  · simp [createDefaultItems, mkDefaultItems, defaultItemNames, h]
  · have hlen : ¬db.items.length = 0 := by
      simpa [List.length_eq_zero] using h
    simp [createDefaultItems, mkDefaultItems, defaultItemNames, h, hlen]

/-- C2 witness: on the empty database the seeder inserts exactly the three
placeholder items. -/
theorem createDefaultItems_spec_witness :
    (createDefaultItems dbEmpty "a" "b" "c").2.items = mkDefaultItems "a" "b" "c" :=
  (createDefaultItems_spec dbEmpty "a" "b" "c" "d" "e" "f").2.2.1 (by decide)

/-! ### The uniqueness invariant on list names -/

/-- The inductive invariant carried through every request: list names are
pairwise distinct, and every stored name is already in normalized form. -/
def ListsOk (db : DB) : Prop :=
  (db.lists.map ListDoc.name).Nodup ∧ ∀ l ∈ db.lists, capitalize l.name = l.name

theorem listsOk_of_names_eq (db db2 : DB)
    (hmap : db2.lists.map ListDoc.name = db.lists.map ListDoc.name)
    (h : ListsOk db) : ListsOk db2 := by
  constructor
  · rw [hmap]
    exact h.1
  · intro l hl
    have hmem : l.name ∈ db2.lists.map ListDoc.name := List.mem_map_of_mem _ hl
    rw [hmap] at hmem
    obtain ⟨m, hm, hname⟩ := List.mem_map.mp hmem
    rw [← hname]
    exact h.2 m hm

theorem getHome_lists (db : DB) (today i1 i2 i3 : String) :
    (getHome db today i1 i2 i3).2.lists = db.lists := by
  simp only [getHome]
  split
  · exact createDefaultItems_lists db i1 i2 i3
  · rfl

theorem postAdd_lists_names (db : DB) (t f : String) (n lf : Option String) :
    (postAdd db t f n lf).2.lists.map ListDoc.name = db.lists.map ListDoc.name := by
  simp only [postAdd]
  split
  · rfl
  · split
    · rfl
    · split
      · rfl
      · split
        · rfl
        · dsimp only
          apply updateFirst_map
          intro x
          rfl

theorem postEdit_lists_names (db : DB) (t : String) (i ti : Option String)
    (ln : String) :
    (postEdit db t i ti ln).2.lists.map ListDoc.name = db.lists.map ListDoc.name := by
  simp only [postEdit]
  split
  · rfl
  · split
    · rfl
    · dsimp only
      apply updateFirst_map
      intro x
      rfl

theorem postDelete_lists_names (db : DB) (t ln c : String) :
    (postDelete db t ln c).2.lists.map ListDoc.name = db.lists.map ListDoc.name := by
  simp only [postDelete]
  split
  · rfl
  · dsimp only
    apply updateFirst_map
    intro x
    rfl

theorem listsOk_step (db : DB) (r : Request) (h : ListsOk db) : ListsOk (step db r) := by
  cases r with
  | home today i1 i2 i3 =>
      exact listsOk_of_names_eq db _ (by rw [step, getHome_lists]) h
  | customList p i1 i2 i3 =>
      rcases hf : findList db.lists (capitalize p) with _ | l
      · have hstep : (step db (.customList p i1 i2 i3)).lists
            = db.lists ++ [⟨capitalize p, mkDefaultItems i1 i2 i3⟩] := by
          rw [step, getCustomList_absent db p i1 i2 i3 hf]
        have hnotin : capitalize p ∉ db.lists.map ListDoc.name := by
          simp only [findList, List.find?_eq_none, beq_iff_eq] at hf
          intro hmem
          obtain ⟨m, hm, hname⟩ := List.mem_map.mp hmem
          exact hf m hm hname
        constructor
        · rw [hstep]
          rw [List.map_append]
          rw [List.nodup_append]
          refine ⟨h.1, List.nodup_singleton _, ?_⟩
          intro a ha hb
          simp only [List.map_cons, List.map_nil, List.mem_singleton] at hb
          rw [hb] at ha
          exact hnotin ha
        · rw [hstep]
          intro l hl
          rcases List.mem_append.mp hl with hmem | hmem
          · exact h.2 l hmem
          · rw [List.mem_singleton] at hmem
            rw [hmem]
            exact capitalize_idem p
      · refine listsOk_of_names_eq db _ ?_ h
        rw [step, getCustomList_found db p i1 i2 i3 l hf, createDefaultItems_lists]
  | add t f n lf =>
      exact listsOk_of_names_eq db _ (by rw [step, postAdd_lists_names]) h
  | edit t i ti ln =>
      exact listsOk_of_names_eq db _ (by rw [step, postEdit_lists_names]) h
  | del t ln c =>
      exact listsOk_of_names_eq db _ (by rw [step, postDelete_lists_names]) h

theorem listsOk_foldl (reqs : List Request) :
    ∀ db : DB, ListsOk db → ListsOk (List.foldl step db reqs) := by
  induction reqs with
  | nil => intro db h; exact h
  | cons r rs ih => intro db h; exact ih _ (listsOk_step db r h)

theorem listsOk_dbEmpty : ListsOk dbEmpty :=
  ⟨List.nodup_nil, by intro l hl; cases hl⟩

theorem listsOk_reachable (db : DB) (h : Reachable db) : ListsOk db := by
  obtain ⟨reqs, hr⟩ := h
  rw [← hr]
  exact listsOk_foldl reqs dbEmpty listsOk_dbEmpty

/-- C3: in every state reachable by a sequence of requests from the empty
database, the lists collection holds at most one list document per distinct
normalized name, and handling one further request of any kind preserves
this. -/
theorem lists_unique_per_normalized_name (db : DB) (h : Reachable db) :
    ((db.lists.map fun l => capitalize l.name).Nodup) ∧
    ∀ r : Request, (((step db r).lists.map fun l => capitalize l.name).Nodup) := by
  have key : ∀ d : DB, ListsOk d → ((d.lists.map fun l => capitalize l.name).Nodup) := by
    intro d hd
    have hmap : (d.lists.map fun l => capitalize l.name) = d.lists.map ListDoc.name :=
      List.map_congr_left (fun l hl => hd.2 l hl)
    rw [hmap]
    exact hd.1
  have hok : ListsOk db := listsOk_reachable db h
  exact ⟨key db hok, fun r => key _ (listsOk_step db r hok)⟩

/-- C3 witness: the state reached by one visit to the path segment "foo" has
pairwise distinct normalized list names. -/
theorem lists_unique_per_normalized_name_witness :
    (((execAll [Request.customList "foo" "a" "b" "c"]).lists.map
        fun l => capitalize l.name).Nodup) ∧
    ∀ r : Request,
      (((step (execAll [Request.customList "foo" "a" "b" "c"]) r).lists.map
          fun l => capitalize l.name).Nodup) :=
  lists_unique_per_normalized_name _ ⟨[Request.customList "foo" "a" "b" "c"], rfl⟩

/-! ### The add handler -/

theorem trim_ne_empty_of_ne {s : String} (h : trimStr s ≠ "") : s ≠ "" := by
  intro he
  apply h
  rw [he]
  rfl

theorem isBlankField_false {s : String} (h : trimStr s ≠ "") :
    isBlankField (some s) = false := by
  have hne : s ≠ "" := trim_ne_empty_of_ne h
  simp [isBlankField, hne, h]

theorem postAdd_not_found (db : DB) (today freshId itemName listName : String)
    (hi : trimStr itemName ≠ "") (hl : trimStr listName ≠ "")
    (hne : listName ≠ today)
    (hfind : findList db.lists listName = none) :
    postAdd db today freshId (some itemName) (some listName)
      = (Response.clientError 400 "List not found!", db) := by
  have hbeq : (listName == today) = false := by simp [hne]
  simp only [postAdd, isBlankField_false hi, isBlankField_false hl,
    Bool.false_eq_true, if_false, Option.getD_some, hbeq, hfind]

/-- C4: an add request whose list field equals the current date string and
whose item field is non-blank appends exactly one new item with the given
name to the flat items collection, leaves every list document unchanged, and
redirects to the home path. -/
theorem addItem_today (db : DB) (today freshId itemName : String)
    (hi : trimStr itemName ≠ "") (ht : trimStr today ≠ "") :
    postAdd db today freshId (some itemName) (some today)
      = (Response.redirect "/",
         { db with items := db.items ++ [⟨freshId, itemName⟩] }) ∧
    (postAdd db today freshId (some itemName) (some today)).2.items.length
      = db.items.length + 1 ∧
    (postAdd db today freshId (some itemName) (some today)).2.lists = db.lists := by
  have hmain : postAdd db today freshId (some itemName) (some today)
      = (Response.redirect "/",
         { db with items := db.items ++ [⟨freshId, itemName⟩] }) := by
    simp only [postAdd, isBlankField_false hi, isBlankField_false ht,
      Bool.false_eq_true, if_false, Option.getD_some, beq_self_eq_true, if_true]
  refine ⟨hmain, ?_, ?_⟩
  · rw [hmain]
    simp
  · rw [hmain]

/-- C4 witness: adding "Buy milk" to the list named by the date string on
the empty database appends exactly that one item. -/
theorem addItem_today_witness :
    postAdd dbEmpty "Monday, January 1" "i1" (some "Buy milk")
        (some "Monday, January 1")
      = (Response.redirect "/",
         { dbEmpty with items := dbEmpty.items ++ [⟨"i1", "Buy milk"⟩] }) ∧
    (postAdd dbEmpty "Monday, January 1" "i1" (some "Buy milk")
        (some "Monday, January 1")).2.items.length = dbEmpty.items.length + 1 ∧
    (postAdd dbEmpty "Monday, January 1" "i1" (some "Buy milk")
        (some "Monday, January 1")).2.lists = dbEmpty.lists :=
  addItem_today dbEmpty "Monday, January 1" "i1" "Buy milk" (by decide) (by decide)

/-- C5: an add request targeting a non-blank list name that differs from the
current date string and matches no stored list responds with the 400 list
not found error and leaves the whole database unchanged. -/
theorem addItem_list_not_found (db : DB) (today freshId itemName listName : String)
    (hi : trimStr itemName ≠ "") (hl : trimStr listName ≠ "")
    (hne : listName ≠ today)
    (hfind : findList db.lists listName = none) :
    postAdd db today freshId (some itemName) (some listName)
      = (Response.clientError 400 "List not found!", db) :=
  postAdd_not_found db today freshId itemName listName hi hl hne hfind

/-- C5 witness: adding to the absent list "Chores" on the empty database
fails with the 400 list not found error and changes nothing. -/
theorem addItem_list_not_found_witness :
    postAdd dbEmpty "Monday, January 1" "i1" (some "Buy milk") (some "Chores")
      = (Response.clientError 400 "List not found!", dbEmpty) :=
  addItem_list_not_found dbEmpty "Monday, January 1" "i1" "Buy milk" "Chores"
    (by decide) (by decide) (by decide) (by decide)

/-- C6: an add request in which the item field or the list field is missing
or trims to the empty string is rejected with a 400 error and performs no
database operation. -/
theorem addItem_invalid_input (db : DB) (today freshId : String)
    (newItem listField : Option String)
    (h : (newItem = none ∨ ∃ s, newItem = some s ∧ trimStr s = "") ∨
         (listField = none ∨ ∃ s, listField = some s ∧ trimStr s = "")) :
    ∃ msg, postAdd db today freshId newItem listField
      = (Response.clientError 400 msg, db) := by
  by_cases hb : isBlankField newItem = true
  · refine ⟨"Item name must be a non-empty string", ?_⟩
    simp only [postAdd, hb, if_true]
  · have hbl : isBlankField listField = true := by
      rcases h with h1 | h2
      · exfalso
        apply hb
        rcases h1 with rfl | ⟨s, rfl, hs⟩
        · rfl
        · simp [isBlankField, hs]
      · rcases h2 with rfl | ⟨s, rfl, hs⟩
        · rfl
        · simp [isBlankField, hs]
    refine ⟨"List name must be a non-empty string", ?_⟩
    simp only [postAdd]
    rw [if_neg hb, if_pos hbl]

/-- C6 witness: a whitespace-only item field is rejected with a 400 error on
the empty database. -/
theorem addItem_invalid_input_witness :
    ∃ msg, postAdd dbEmpty "Monday, January 1" "i1" (some "   ") (some "Chores")
      = (Response.clientError 400 msg, dbEmpty) :=
  addItem_invalid_input dbEmpty "Monday, January 1" "i1" (some "   ") (some "Chores")
    (Or.inl (Or.inr ⟨"   ", rfl, by decide⟩))

/-- C10: the add handler matches the target list by the exact submitted
string while the GET handler stores lists under the capitalized name, so an
add request whose submitted name matches no stored list fails with the 400
list not found error and changes nothing, even when a list stored under the
capitalized form of that very name exists. -/
theorem addItem_case_mismatch (db : DB) (today freshId itemName listName : String)
    (L : ListDoc)
    (hi : trimStr itemName ≠ "") (hl : trimStr listName ≠ "")
    (hne : listName ≠ today)
    (hmiss : findList db.lists listName = none)
    (_hnorm : findList db.lists (capitalize listName) = some L) :
    postAdd db today freshId (some itemName) (some listName)
      = (Response.clientError 400 "List not found!", db) :=
  postAdd_not_found db today freshId itemName listName hi hl hne hmiss

/-- C10 witness: with only the list "Foo" stored, adding to "foo" fails with
the 400 list not found error although "Foo" is the capitalized form of
"foo". -/
theorem addItem_case_mismatch_witness :
    postAdd ⟨[], [⟨"Foo", []⟩]⟩ "Monday, January 1" "i1" (some "Buy milk")
        (some "foo")
      = (Response.clientError 400 "List not found!", ⟨[], [⟨"Foo", []⟩]⟩) :=
  addItem_case_mismatch ⟨[], [⟨"Foo", []⟩]⟩ "Monday, January 1" "i1" "Buy milk"
    "foo" ⟨"Foo", []⟩ (by decide) (by decide) (by decide) (by decide) (by decide)

/-! ### The edit and delete handlers -/

theorem isFalsyField_false {s : String} (h : s ≠ "") :
    isFalsyField (some s) = false := by
  simp [isFalsyField, h]

/-- C7: an edit request with non-missing identifier and title redirects and,
on the targeted list, renames exactly the first item matching the
identifier, leaving every other item, the item identifier, the other
collection, and every other list document unchanged; when the identifier
matches nothing the whole database is unchanged and the response is still a
redirect. -/
theorem editItem_spec (db : DB) (today idv title listName : String)
    (hid : idv ≠ "") (ht : title ≠ "") :
    (listName = today → (∀ it ∈ db.items, it.id ≠ idv) →
        postEdit db today (some idv) (some title) listName
          = (Response.redirect "/", db)) ∧
    (listName = today → ∀ pre x post, db.items = pre ++ x :: post →
        (∀ y ∈ pre, y.id ≠ idv) → x.id = idv →
        postEdit db today (some idv) (some title) listName
          = (Response.redirect "/",
             { db with items := pre ++ { x with name := title } :: post })) ∧
    (listName ≠ today →
        (∀ l ∈ db.lists, l.name ≠ listName ∨ ∀ it ∈ l.items, it.id ≠ idv) →
        postEdit db today (some idv) (some title) listName
          = (Response.redirect ("/" ++ listName), db)) ∧
    (listName ≠ today → ∀ lpre L lpost pre x post,
        db.lists = lpre ++ L :: lpost →
        (∀ M ∈ lpre, M.name ≠ listName ∨ ∀ it ∈ M.items, it.id ≠ idv) →
        L.name = listName → L.items = pre ++ x :: post →
        (∀ y ∈ pre, y.id ≠ idv) → x.id = idv →
        postEdit db today (some idv) (some title) listName
          = (Response.redirect ("/" ++ listName),
             { db with lists := lpre ++
                 { L with items := pre ++ { x with name := title } :: post }
                   :: lpost })) := by
  have hv : (isFalsyField (some idv) || isFalsyField (some title)) = false := by
    rw [isFalsyField_false hid, isFalsyField_false ht]
    rfl
  refine ⟨?_, ?_, ?_, ?_⟩
  · intro heq hno
    subst heq
    simp only [postEdit, hv, Bool.false_eq_true, if_false, Option.getD_some,
      beq_self_eq_true, if_true]
    rw [updateFirst_eq_self _ _ db.items (fun y hy => by simp [hno y hy])]
  · intro heq pre x post hdec hpre hx
    subst heq
    simp only [postEdit, hv, Bool.false_eq_true, if_false, Option.getD_some,
      beq_self_eq_true, if_true]
    rw [hdec, updateFirst_append_cons _ _ pre x post
      (fun y hy => by simp [hpre y hy]) (by simp [hx])]
  · intro hne hno
    have hbeq : (listName == today) = false := by simp [hne]
    simp only [postEdit, hv, Bool.false_eq_true, if_false, Option.getD_some, hbeq]
    rw [updateFirst_eq_self]
    intro l hl
    rcases hno l hl with hn | hits
    · simp [hn]
    · have hany : (l.items.any fun it => it.id == idv) = false := by
        rw [List.any_eq_false]
        intro it hit
        simp [hits it hit]
      simp [hany]
  · intro hne lpre L lpost pre x post hldec hlpre hLname hdec hpre hx
    have hbeq : (listName == today) = false := by simp [hne]
    simp only [postEdit, hv, Bool.false_eq_true, if_false, Option.getD_some, hbeq]
    have hplpre : ∀ M ∈ lpre,
        (M.name == listName && M.items.any fun it => it.id == idv) = false := by
      intro M hM
      rcases hlpre M hM with hn | hits
      · simp [hn]
      · have hany : (M.items.any fun it => it.id == idv) = false := by
          rw [List.any_eq_false]
          intro it hit
          simp [hits it hit]
        simp [hany]
    have hpL : (L.name == listName && L.items.any fun it => it.id == idv) = true := by
      have hxm : x ∈ L.items := by
        rw [hdec]
        exact List.mem_append_right pre (List.mem_cons_self x post)
      have hany : (L.items.any fun it => it.id == idv) = true :=
        List.any_eq_true.mpr ⟨x, hxm, by simp [hx]⟩
      simp [hLname, hany]
    rw [hldec, updateFirst_append_cons _ _ lpre L lpost hplpre hpL]
    rw [hdec, updateFirst_append_cons _ _ pre x post
      (fun y hy => by simp [hpre y hy]) (by simp [hx])]

/-- C7 witness: in a database whose flat collection holds the single item
with identifier i1, editing that item renames exactly it. -/
theorem editItem_spec_witness :
    postEdit ⟨[⟨"i1", "a"⟩], []⟩ "T" (some "i1") (some "b") "T"
      = (Response.redirect "/", ⟨[⟨"i1", "b"⟩], []⟩) :=
  (editItem_spec ⟨[⟨"i1", "a"⟩], []⟩ "T" "i1" "b" "T" (by decide) (by decide)).2.1
    rfl [] ⟨"i1", "a"⟩ [] rfl (by simp) rfl

/-- C8: a delete request always responds with a redirect; on the targeted
list it removes the item matching the identifier, so that the list no
longer contains that identifier, and leaves everything else unchanged; when
the identifier matches nothing, or the named list does not exist, the
database is unchanged. The flat-collection case assumes the store-enforced
uniqueness of identifiers in the flat collection. -/
theorem deleteItem_spec (db : DB) (today listName checkbox : String) :
    ((postDelete db today listName checkbox).1
       = Response.redirect (if listName = today then "/" else "/" ++ listName)) ∧
    (listName = today → (∀ it ∈ db.items, it.id ≠ checkbox) →
        postDelete db today listName checkbox = (Response.redirect "/", db)) ∧
    (listName = today → (db.items.map Item.id).Nodup →
        ∀ pre x post, db.items = pre ++ x :: post → x.id = checkbox →
        postDelete db today listName checkbox
          = (Response.redirect "/", { db with items := pre ++ post }) ∧
        ∀ it ∈ pre ++ post, it.id ≠ checkbox) ∧
    (listName ≠ today → (∀ l ∈ db.lists, l.name ≠ listName) →
        postDelete db today listName checkbox
          = (Response.redirect ("/" ++ listName), db)) ∧
    (listName ≠ today → ∀ lpre L lpost, db.lists = lpre ++ L :: lpost →
        (∀ M ∈ lpre, M.name ≠ listName) → L.name = listName →
        postDelete db today listName checkbox
          = (Response.redirect ("/" ++ listName),
             { db with lists := lpre ++
                 { L with items := L.items.filter (fun it => !(it.id == checkbox)) }
                   :: lpost }) ∧
        (∀ it ∈ L.items.filter (fun it => !(it.id == checkbox)), it.id ≠ checkbox) ∧
        ((∀ it ∈ L.items, it.id ≠ checkbox) →
            L.items.filter (fun it => !(it.id == checkbox)) = L.items)) := by
  refine ⟨?_, ?_, ?_, ?_, ?_⟩
  · by_cases heq : listName = today
    · subst heq
      simp [postDelete]
    · have hbeq : (listName == today) = false := by simp [heq]
      simp [postDelete, hbeq, heq]
  · intro heq hno
    subst heq
    simp only [postDelete, beq_self_eq_true, if_true]
    rw [removeFirst_eq_self _ db.items (fun y hy => by simp [hno y hy])]
  · intro heq hnd pre x post hdec hx
    subst heq
    have hnotin : x.id ∉ pre.map Item.id ∧ x.id ∉ post.map Item.id := by
      rw [hdec] at hnd
      rw [List.map_append, List.map_cons] at hnd
      have := List.nodup_middle.mp hnd
      rw [List.nodup_cons] at this
      have hn := this.1
      rw [List.mem_append] at hn
      exact ⟨fun hc => hn (Or.inl hc), fun hc => hn (Or.inr hc)⟩
    have hpre : ∀ y ∈ pre, (y.id == checkbox) = false := by
      intro y hy
      have : y.id ≠ x.id := by
        intro hc
        exact hnotin.1 (hc ▸ List.mem_map_of_mem Item.id hy)
      simp [hx ▸ this]
    constructor
    · simp only [postDelete, beq_self_eq_true, if_true]
      rw [hdec, removeFirst_append_cons _ pre x post hpre (by simp [hx])]
    · intro it hit
      rw [List.mem_append] at hit
      intro hc
      rcases hit with hm | hm
      · exact hnotin.1 (hx ▸ hc ▸ List.mem_map_of_mem Item.id hm)
      · exact hnotin.2 (hx ▸ hc ▸ List.mem_map_of_mem Item.id hm)
  · intro hne hno
    have hbeq : (listName == today) = false := by simp [hne]
    simp only [postDelete, hbeq, Bool.false_eq_true, if_false]
    rw [updateFirst_eq_self _ _ db.lists (fun l hl => by simp [hno l hl])]
  · intro hne lpre L lpost hldec hlpre hLname
    have hbeq : (listName == today) = false := by simp [hne]
    refine ⟨?_, ?_, ?_⟩
    · simp only [postDelete, hbeq, Bool.false_eq_true, if_false]
      rw [hldec, updateFirst_append_cons _ _ lpre L lpost
        (fun M hM => by simp [hlpre M hM]) (by simp [hLname])]
    · intro it hit
      rw [List.mem_filter] at hit
      have := hit.2
      simp only [Bool.not_eq_eq_eq_not, Bool.not_true, beq_eq_false_iff_ne] at this
      exact this
    · intro hno
      rw [List.filter_eq_self]
      intro it hit
      simp [hno it hit]

/-- C8 witness: deleting the single flat item with identifier i1 by that
identifier removes it, leaving the flat collection without the identifier. -/
theorem deleteItem_spec_witness :
    postDelete ⟨[⟨"i1", "a"⟩], []⟩ "T" "T" "i1"
      = (Response.redirect "/", ⟨[], []⟩) ∧
    ∀ it ∈ ([] : List Item) ++ [], it.id ≠ "i1" :=
  (deleteItem_spec ⟨[⟨"i1", "a"⟩], []⟩ "T" "T" "i1").2.2.1
    rfl (by simp) [] ⟨"i1", "a"⟩ [] rfl rfl

/-- C9: the custom-list branches of the edit and delete handlers never touch
the flat items collection, and the today branches never touch any list
document. -/
theorem embedding_independence (db : DB) (today listName checkbox : String)
    (updatedItemId updatedItemTitle : Option String) :
    (listName ≠ today →
        (postEdit db today updatedItemId updatedItemTitle listName).2.items
          = db.items ∧
        (postDelete db today listName checkbox).2.items = db.items) ∧
    (listName = today →
        (postEdit db today updatedItemId updatedItemTitle listName).2.lists
          = db.lists ∧
        (postDelete db today listName checkbox).2.lists = db.lists) := by
  constructor
  · intro hne
    have hbeq : (listName == today) = false := by simp [hne]
    constructor
    · simp only [postEdit]
      split
      · rfl
      · simp only [hbeq, Bool.false_eq_true, if_false]
    · simp only [postDelete, hbeq, Bool.false_eq_true, if_false]
  · intro heq
    subst heq
    constructor
    · simp only [postEdit]
      split
      · rfl
      · simp only [beq_self_eq_true, if_true]
    · simp only [postDelete, beq_self_eq_true, if_true]

/-- C9 witness: an edit and a delete addressed to the custom list named Foo
leave the flat items collection unchanged. -/
theorem embedding_independence_witness :
    (postEdit dbEmpty "T" (some "i") (some "n") "Foo").2.items = dbEmpty.items ∧
    (postDelete dbEmpty "T" "Foo" "c").2.items = dbEmpty.items :=
  (embedding_independence dbEmpty "T" "Foo" "c" (some "i") (some "n")).1 (by decide)

end Todo
